import Mathlib

/-!
Shallow embedding of the configlib configuration-resolution engine
(struct walker, flag registry, precedence resolver) together with the
fragments of the Go standard library it relies on (`strconv`, `strings`,
`flag`).  Machine integers are modelled as `Int` with explicit range
checks; floating-point parsing keeps finite values as exact rationals
(IEEE binary rounding is abstracted away — no statement below depends on
rounded numerics).  Hexadecimal float literals, digit-separating
underscores and Unicode case folding / white space beyond ASCII are
outside the modelled fragment; no statement below touches them.
-/

deriving instance DecidableEq for Except

/-- Go `reflect.Kind` fragment relevant to the library's type dispatch.
`sliceK` carries the element kind (`Type.Elem().Kind()`); `int64K`,
`uintK` and `otherK` stand for field kinds outside the supported set. -/
inductive GoKind where
  | stringK
  | intK
  | float32K
  | float64K
  | boolK
  | sliceK (elem : GoKind)
  | int64K
  | uintK
  | otherK
deriving DecidableEq

/-- Result of `strconv.ParseFloat`: a finite value (kept exact as the
decimal `mant × 10 ^ exp10`, unnormalised, exactly as parsed), an
infinity, or NaN. -/
inductive FloatVal where
  | finite (mant : ℤ) (exp10 : ℤ)
  | inf (neg : Bool)
  | nan
deriving DecidableEq

/-- A value stored in one leaf field of the target record. -/
inductive GoValue where
  | vstr (s : String)
  | vint (n : Int)
  | vfloat (x : FloatVal)
  | vbool (b : Bool)
  | vstrList (l : List String)
deriving DecidableEq

/-- The target record, as a map from dot-joined field path to the value
currently stored there (the reflect.Value bindings of the source). -/
abbrev Record := List (String × GoValue)

/-- Write through a field binding (`reflect.Value.Set*`): the most recent
binding for a path shadows older ones. -/
def recSet (r : Record) (path : String) (v : GoValue) : Record :=
  (path, v) :: r

/-- Read a field of the record. -/
def recLookup (r : Record) (path : String) : Option GoValue :=
  List.lookup path r

/-- Zero value for each Go kind (what an untouched field holds). The
nil/empty distinction for slices is abstracted. -/
def zeroValue : GoKind → GoValue
  | .stringK => .vstr ""
  | .intK => .vint 0
  | .float32K => .vfloat (.finite 0 0)
  | .float64K => .vfloat (.finite 0 0)
  | .boolK => .vbool false
  | .sliceK _ => .vstrList []
  | .int64K => .vint 0
  | .uintK => .vint 0
  | .otherK => .vint 0

/-- ASCII white space recognised by `strings.TrimSpace` (Unicode spaces
are outside the modelled fragment). -/
def isGoSpace (c : Char) : Bool :=
  c = ' ' ∨ c = '\t' ∨ c = '\n' ∨ c = '\x0b' ∨ c = '\x0c' ∨ c = '\r'

/-- Model of `strings.TrimSpace`. -/
def goTrimSpace (s : String) : String :=
  String.mk (((s.data.dropWhile isGoSpace).reverse.dropWhile isGoSpace).reverse)

/-- Split a character list on a separator character, keeping empty
segments — the semantics of `strings.Split` for a one-character
separator (`Split("", sep)` yields one empty segment). -/
def splitChar (sep : Char) : List Char → List (List Char)
  | [] => [[]]
  | c :: rest =>
    match splitChar sep rest with
    | [] => [[]]
    | g :: gs => if c = sep then [] :: g :: gs else (c :: g) :: gs

/-- Model of `strings.Split(s, ",")` (one-character separator). -/
def goSplit (s : String) (sep : Char) : List String :=
  (splitChar sep s.data).map String.mk

/-- Model of `strings.ToUpper` (ASCII fragment). -/
def goToUpper (s : String) : String :=
  String.mk (s.data.map Char.toUpper)

/-- Model of `strings.ToLower` (ASCII fragment). -/
def goToLower (s : String) : String :=
  String.mk (s.data.map Char.toLower)

/-- Model of `strings.ReplaceAll` for a one-character pattern. -/
def replaceChar (a b : Char) (s : String) : String :=
  String.mk (s.data.map (fun c => if c = a then b else c))

/-- Model of `strings.HasPrefix`. -/
def hasPfx (s p : String) : Bool :=
  p.data.isPrefixOf s.data

/-- Model of `strconv.Quote` as used inside `NumError` messages
(escaping of special characters is abstracted; no input below needs
escapes). -/
def goQuote (s : String) : String :=
  "\"" ++ s ++ "\""

/-- Numeric value of a list of decimal digits. -/
def digitsToNat (ds : List Char) : ℕ :=
  ds.foldl (fun a c => a * 10 + (c.toNat - 48)) 0

/-- Strip one optional leading sign, returning (isNegative, rest). -/
def stripSign : List Char → Bool × List Char
  | '+' :: rest => (false, rest)
  | '-' :: rest => (true, rest)
  | cs => (false, cs)

/-- Model of `strconv.Atoi` (= `ParseInt(s, 10, 0)` with 64-bit `int`):
an optional sign followed by at least one decimal digit, range-checked
against int64. -/
def goAtoi (s : String) : Except String Int :=
  let neg := (stripSign s.data).1
  let ds := (stripSign s.data).2
  if ds = [] ∨ ¬ ds.all Char.isDigit then
    .error ("strconv.Atoi: parsing " ++ goQuote s ++ ": invalid syntax")
  else
    let n : ℤ := digitsToNat ds
    let v : ℤ := if neg then -n else n
    if v < -(2 ^ 63) ∨ (2 ^ 63 - 1 : ℤ) < v then
      .error ("strconv.Atoi: parsing " ++ goQuote s ++ ": value out of range")
    else
      .ok v

/-- Model of `strconv.ParseBool`. -/
def goParseBool (s : String) : Except String Bool :=
  if s = "1" ∨ s = "t" ∨ s = "T" ∨ s = "true" ∨ s = "TRUE" ∨ s = "True" then
    .ok true
  else if s = "0" ∨ s = "f" ∨ s = "F" ∨ s = "false" ∨ s = "FALSE" ∨ s = "False" then
    .ok false
  else
    .error ("strconv.ParseBool: parsing " ++ goQuote s ++ ": invalid syntax")

/-- Model of `strconv.FormatBool`. -/
def goFormatBool (b : Bool) : String :=
  if b then "true" else "false"

/-- Case-insensitive comparison of a character list with an ASCII
lower-case pattern. -/
def lowerEq (cs : List Char) (t : List Char) : Bool :=
  cs.map Char.toLower = t

/-- Parse an unsigned decimal floating literal (digits, optional dot,
optional decimal exponent) to its exact decimal value, returned as
(mantissa, base-ten exponent). -/
def parseDecCore (cs : List Char) : Option (ℕ × ℤ) :=
  let (ip, rest1) := cs.span Char.isDigit
  let (fp, rest2) :=
    match rest1 with
    | '.' :: r =>
      let (d, r2) := r.span Char.isDigit
      (some d, r2)
    | _ => (none, rest1)
  if ip = [] ∧ (fp = none ∨ fp = some []) then
    none
  else
    let mant : ℕ := digitsToNat (ip ++ fp.getD [])
    let fracLen : ℕ := (fp.getD []).length
    match rest2 with
    | [] => some (mant, -(fracLen : ℤ))
    | e :: r3 =>
      if e = 'e' ∨ e = 'E' then
        let (esign, r4) := stripSign r3
        let (ed, r5) := r4.span Char.isDigit
        if ed = [] ∨ r5 ≠ [] then none
        else
          let ev : ℤ := if esign then -(digitsToNat ed : ℤ) else (digitsToNat ed : ℤ)
          some (mant, ev - (fracLen : ℤ))
      else none

/-- Whether the decimal `m × 10 ^ e` reaches the overflow magnitude
`limit` (an integer comparison, scaling by powers of ten). -/
def floatOverflows (m : ℕ) (e : ℤ) (limit : ℕ) : Bool :=
  if 0 ≤ e then (limit : ℤ) ≤ (m : ℤ) * 10 ^ e.toNat
  else (limit : ℤ) * 10 ^ (-e).toNat ≤ (m : ℤ)

/-- Model of `strconv.ParseFloat(s, bitSize)` on the decimal fragment:
optional sign, decimal mantissa/exponent, the special tokens
inf/infinity (signed) and nan (unsigned), and the overflow range check
for the requested width (values at or beyond the round-to-infinity
threshold of the width return `value out of range`, as in Go).
Subnormal underflow range errors and hexadecimal literals are outside
the modelled fragment. -/
def goParseFloat (bitSize : ℕ) (s : String) : Except String FloatVal :=
  let cs := s.data
  let neg := (stripSign cs).1
  let rest := (stripSign cs).2
  if lowerEq rest ['i', 'n', 'f'] ∨ lowerEq rest ['i', 'n', 'f', 'i', 'n', 'i', 't', 'y'] then
    .ok (.inf neg)
  else if lowerEq cs ['n', 'a', 'n'] then
    .ok .nan
  else
    match parseDecCore rest with
    | none => .error ("strconv.ParseFloat: parsing " ++ goQuote s ++ ": invalid syntax")
    | some (m, e) =>
      let limit : ℕ := if bitSize = 32 then 2 ^ 128 - 2 ^ 103 else 2 ^ 1024 - 2 ^ 970
      if floatOverflows m e limit then
        .error ("strconv.ParseFloat: parsing " ++ goQuote s ++ ": value out of range")
      else
        .ok (.finite (if neg then -(m : ℤ) else (m : ℤ)) e)

/-- One descriptor per configurable leaf field (source: `fieldInfo`).
The reflect.Value binding is represented by `FieldPath`, which keys the
`Record`. -/
structure fieldInfo where
  EnvName : String
  CliName : String
  CliNames : List String
  DefaultVal : String
  Required : Bool
  Description : String
  FieldPath : String
  typ : GoKind
deriving DecidableEq

/-- Parser construction options (source: `Parser` fields
`disableAutoEnv`, `disableAutoFlag`, `envPrefix` — the last renamed to
`envPfx` here). -/
structure ParserOptions where
  disableAutoEnv : Bool
  disableAutoFlag : Bool
  envPfx : String

/-- The struct-tag vocabulary read by `parseFieldTags`: the `env`,
`flag`, `default` (here `dflt`), `required` and `desc` tags, each empty
when absent. -/
structure GoTags where
  env : String
  flag : String
  dflt : String
  required : String
  desc : String

/-- The env name before the prefix rule: the `env` tag when present,
otherwise the auto-derivation from the path (source lines 168-174). -/
def envNameBase (opts : ParserOptions) (tags : GoTags) (path : String) : String :=
  if tags.env ≠ "" then tags.env
  else if opts.disableAutoEnv then ""
  else goToUpper (replaceChar '.' '_' path)

/-- The env-prefix rule (source lines 176-182): prepend the prefix to a
non-empty name unless the name already starts with it. -/
def applyEnvPfx (pfx name : String) : String :=
  if name ≠ "" ∧ pfx ≠ "" then
    if hasPfx name pfx then name else pfx ++ name
  else name

/-- Nested path building of `walkStruct` (source lines 135-139). -/
def mkPath (pathPfx name : String) : String :=
  if pathPfx = "" then name else pathPfx ++ "." ++ name

/-- Model of `parseFieldTags` (source lines 161-205). -/
def parseFieldTags (opts : ParserOptions) (tags : GoTags) (path : String) (k : GoKind) :
    fieldInfo :=
  let envName := applyEnvPfx opts.envPfx (envNameBase opts tags path)
  let cliNames :=
    if tags.flag ≠ "" then
      (splitChar ',' tags.flag.data).map (fun cs => goTrimSpace (String.mk cs))
    else if opts.disableAutoFlag then []
    else [goToLower (replaceChar '.' '-' path)]
  { EnvName := envName
    CliName := cliNames.headD ""
    CliNames := cliNames
    DefaultVal := tags.dflt
    Required := tags.required = "true"
    Description := tags.desc
    FieldPath := path
    typ := k }

/-- A member of a Go configuration struct: a leaf field or a nested
struct; `settable` is `reflect.Value.CanSet` (false for unexported
fields). -/
inductive GoStructField where
  | leaf (name : String) (tags : GoTags) (typ : GoKind) (settable : Bool)
  | nested (name : String) (fields : List GoStructField) (settable : Bool)

mutual

/-- Model of one iteration of the `walkStruct` loop (source lines
126-156): skip unsettable members, recurse into nested structs, and add
a leaf descriptor only when at least one of env name, CLI name or
default is set. -/
def walkField (opts : ParserOptions) (pathPfx : String) : GoStructField → List fieldInfo
  | .leaf name tags k settable =>
    if settable then
      let info := parseFieldTags opts tags (mkPath pathPfx name) k
      if info.EnvName ≠ "" ∨ info.CliName ≠ "" ∨ info.DefaultVal ≠ "" then [info] else []
    else []
  | .nested name fs settable =>
    if settable then walkListAux opts (mkPath pathPfx name) fs else []

/-- Model of `walkStruct` over the member list, in declaration order. -/
def walkListAux (opts : ParserOptions) (pathPfx : String) : List GoStructField → List fieldInfo
  | [] => []
  | f :: rest => walkField opts pathPfx f ++ walkListAux opts pathPfx rest

end

/-- The zero-initialised record for a struct: every settable leaf holds
its kind's zero value. -/
def zeroRecordAux (pathPfx : String) : List GoStructField → Record
  | [] => []
  | .leaf name _ k settable :: rest =>
    (if settable then [(mkPath pathPfx name, zeroValue k)] else []) ++ zeroRecordAux pathPfx rest
  | .nested name fs settable :: rest =>
    (if settable then zeroRecordAux (mkPath pathPfx name) fs else []) ++ zeroRecordAux pathPfx rest

/-- Zero record of a whole struct. -/
def zeroRecord (strut : List GoStructField) : Record :=
  zeroRecordAux "" strut

/-- Priority 1 of `applyValues` (source lines 298-304): the CLI value,
only if a CLI name exists, a value was recorded for it, and the value is
non-empty. -/
def cliLookup (fv : List (String × String)) (f : fieldInfo) : Option String :=
  if f.CliName = "" then none
  else
    match List.lookup f.CliName fv with
    | some v => if v = "" then none else some v
    | none => none

/-- Priority 2 of `applyValues` (source lines 306-312): the environment
value, only if an env name exists and `os.Getenv` returns non-empty
(Go's `Getenv` returns `""` for unset variables, so the environment is a
total `String → String`). -/
def envLookup (env : String → String) (f : fieldInfo) : Option String :=
  if f.EnvName = "" then none
  else if env f.EnvName = "" then none
  else some (env f.EnvName)

/-- Priority 3 of `applyValues` (source lines 314-318): the default, if
non-empty. -/
def defaultLookup (f : fieldInfo) : Option String :=
  if f.DefaultVal = "" then none else some f.DefaultVal

/-- The raw-value selection of `applyValues` for one descriptor (source
lines 294-318): CLI, then environment, then default. -/
def resolveRaw (fv : List (String × String)) (env : String → String) (f : fieldInfo) :
    Option String :=
  match cliLookup fv f with
  | some v => some v
  | none =>
    match envLookup env f with
    | some v => some v
    | none => defaultLookup f

/-- Model of `setFieldValue` (source lines 350-384): kind dispatch with
numeric/boolean parsing; kinds outside the switch (and slices of
non-strings) fall through and leave the record unchanged with no
error. -/
def setFieldValue (f : fieldInfo) (value : String) (r : Record) : Except String Record :=
  match f.typ with
  | .stringK => .ok (recSet r f.FieldPath (.vstr value))
  | .intK =>
    match goAtoi value with
    | .error e => .error e
    | .ok n => .ok (recSet r f.FieldPath (.vint n))
  | .float32K =>
    match goParseFloat 64 value with
    | .error e => .error e
    | .ok x => .ok (recSet r f.FieldPath (.vfloat x))
  | .float64K =>
    match goParseFloat 64 value with
    | .error e => .error e
    | .ok x => .ok (recSet r f.FieldPath (.vfloat x))
  | .boolK =>
    match goParseBool value with
    | .error e => .error e
    | .ok b => .ok (recSet r f.FieldPath (.vbool b))
  | .sliceK elem =>
    if elem = .stringK then
      .ok (recSet r f.FieldPath (.vstrList ((goSplit value ',').map goTrimSpace)))
    else .ok r
  | .int64K => .ok r
  | .uintK => .ok r
  | .otherK => .ok r

/-- The source clauses of one missing-required entry (source lines
322-328): env first, then flag, each only when its name is set. -/
def fmtMissingSources (f : fieldInfo) : List String :=
  (if f.EnvName ≠ "" then ["env: " ++ f.EnvName] else []) ++
    (if f.CliName ≠ "" then ["flag: --" ++ f.CliName] else [])

/-- One missing-required entry (source lines 329-330). -/
def fmtMissing (f : fieldInfo) : String :=
  f.FieldPath ++ " (" ++ String.intercalate ", " (fmtMissingSources f) ++ ")"

/-- The aggregated error message (source line 344). -/
def aggMsg (missing : List String) : String :=
  "missing required fields:\n  - " ++ String.intercalate "\n  - " missing

/-- The loop of `applyValues` (source lines 291-347): per descriptor,
select the raw value, record a violation for a required descriptor with
no value, assign a selected value (aborting on a coercion error with
the `error setting field` message), and after the loop fail with the
aggregated message when violations were recorded. Returns the final
record together with the error, mirroring in-place mutation plus the
returned `error`. -/
def applyValuesLoop (fv : List (String × String)) (env : String → String) :
    List fieldInfo → Record → List String → Record × Option String
  | [], r, missing =>
    (r, if missing.isEmpty then none else some (aggMsg missing))
  | f :: rest, r, missing =>
    let raw := resolveRaw fv env f
    let missing' := if f.Required ∧ raw = none then missing ++ [fmtMissing f] else missing
    match raw with
    | none => applyValuesLoop fv env rest r missing'
    | some v =>
      match setFieldValue f v r with
      | .error e => (r, some ("error setting field " ++ f.FieldPath ++ ": " ++ e))
      | .ok r2 => applyValuesLoop fv env rest r2 missing'

/-- Model of `applyValues`. -/
def applyValues (fields : List fieldInfo) (fv : List (String × String))
    (env : String → String) (r : Record) : Record × Option String :=
  applyValuesLoop fv env fields r []

/-- The error of `setFieldValue`, which is independent of the record. -/
def setErr (f : fieldInfo) (v : String) : Option String :=
  match setFieldValue f v [] with
  | .error e => some e
  | .ok _ => none

/-- The record produced by a successful `setFieldValue` (the input
record when the coercion failed or the kind is unsupported). -/
def applyOne (f : fieldInfo) (v : String) (r : Record) : Record :=
  match setFieldValue f v r with
  | .ok r2 => r2
  | .error _ => r

/-- The record built by the assignment part of the `applyValues` loop,
ignoring required-field accounting. -/
def applyRecord (fv : List (String × String)) (env : String → String) :
    List fieldInfo → Record → Record
  | [], r => r
  | f :: rest, r =>
    match resolveRaw fv env f with
    | none => applyRecord fv env rest r
    | some v => applyRecord fv env rest (applyOne f v r)

/-- The missing-required entries of a descriptor list, in list order. -/
def violationsOf (fv : List (String × String)) (env : String → String)
    (fields : List fieldInfo) : List String :=
  (fields.filter (fun f => f.Required && (resolveRaw fv env f).isNone)).map fmtMissing

/-- Supported target kinds of `setFieldValue` (string, int,
float32/float64, bool, slice of string). -/
def supportedKind : GoKind → Bool
  | .stringK => true
  | .intK => true
  | .float32K => true
  | .float64K => true
  | .boolK => true
  | .sliceK e => e = .stringK
  | .int64K => false
  | .uintK => false
  | .otherK => false

/-- Model of the claim-side comma join used to state order/duplicate
preservation of string-list coercion. -/
def joinComma : List String → String
  | [] => ""
  | [x] => x
  | x :: rest => x ++ "," ++ joinComma rest

/-- The handler `registerFlags` binds to one flag name: the
`flag.Func` handlers record the raw token under the field's primary CLI
name (with validation for int/float), boolean field flags are
`BoolVar` cells, and the reserved help/h switches set `showHelp`. -/
inductive FlagHandler where
  | funcString (primary : String)
  | funcInt (primary : String)
  | funcFloat (primary : String)
  | funcSlice (primary : String)
  | boolCell
  | helpCell
deriving DecidableEq

/-- One registered flag. -/
structure FlagReg where
  name : String
  handler : FlagHandler
deriving DecidableEq

/-- Model of the `registerFlags` switch for one field (source lines
207-234): skip fields without CLI names; register every alias according
to the field kind; kinds outside the switch register nothing. -/
def regsOfField (f : fieldInfo) : List FlagReg :=
  if f.CliNames = [] ∨ f.CliName = "" then []
  else
    f.CliNames.flatMap (fun n =>
      match f.typ with
      | .stringK => [⟨n, .funcString f.CliName⟩]
      | .intK => [⟨n, .funcInt f.CliName⟩]
      | .float32K => [⟨n, .funcFloat f.CliName⟩]
      | .float64K => [⟨n, .funcFloat f.CliName⟩]
      | .boolK => [⟨n, .boolCell⟩]
      | .sliceK _ => [⟨n, .funcSlice f.CliName⟩]
      | .int64K => []
      | .uintK => []
      | .otherK => [])

/-- The full registry: the help/h switches added by `NewParser` plus the
per-field registrations (lookup is by exact name, as in the flag
package's map). -/
def registerFlags (fields : List fieldInfo) : List FlagReg :=
  ⟨"help", .helpCell⟩ :: ⟨"h", .helpCell⟩ :: fields.flatMap regsOfField

/-- Mutable state of one `flag.FlagSet.Parse` run: the `flagValues` map
written by Func handlers, the boolean cells (`boolFlags` pointers), the
set of flags that were actually set (for `Visit`), and `showHelp`. -/
structure FlagState where
  flagValues : List (String × String)
  boolValues : List (String × Bool)
  setNames : List String
  showHelp : Bool
deriving DecidableEq

/-- Initial flag state: every boolean field alias gets its own cell,
initialised to false by `BoolVar`. -/
def initBoolValues (regs : List FlagReg) : List (String × Bool) :=
  regs.filterMap (fun r =>
    match r.handler with
    | .boolCell => some (r.name, false)
    | _ => none)

/-- Initial state for a parse run. -/
def initFlagState (regs : List FlagReg) : FlagState :=
  ⟨[], initBoolValues regs, [], false⟩

/-- Registry lookup by flag name (the flag package's `formal` map). -/
def lookupReg : List FlagReg → String → Option FlagHandler
  | [], _ => none
  | r :: rest, name => if r.name = name then some r.handler else lookupReg rest name

/-- Mark a flag as set (the flag package's `actual` map keyed by
name). -/
def markSet (name : String) (st : FlagState) : FlagState :=
  if st.setNames.contains name then st
  else { st with setNames := st.setNames ++ [name] }

/-- Update a boolean cell (`*boolPtr = parsed`). -/
def setBoolCell (st : FlagState) (name : String) (b : Bool) : FlagState :=
  { st with boolValues := st.boolValues.map (fun p => if p.1 = name then (p.1, b) else p) }

/-- Run a Func handler on a value token: `createStringHandler` /
`createSliceHandler` record the token; `createIntHandler` /
`createFloatHandler` (source lines 242-289) validate it first and fail
with their kind-specific message. Returns the raw handler error, which
`parseOne` then wraps. -/
def runHandler (handler : FlagHandler) (value : String) (st : FlagState) :
    Except String FlagState :=
  match handler with
  | .funcString primary => .ok { st with flagValues := (primary, value) :: st.flagValues }
  | .funcSlice primary => .ok { st with flagValues := (primary, value) :: st.flagValues }
  | .funcInt primary =>
    match goAtoi value with
    | .error _ => .error ("invalid integer value: " ++ value)
    | .ok _ => .ok { st with flagValues := (primary, value) :: st.flagValues }
  | .funcFloat primary =>
    match goParseFloat 64 value with
    | .error _ => .error ("invalid float value: " ++ value)
    | .ok _ => .ok { st with flagValues := (primary, value) :: st.flagValues }
  | .boolCell => .ok st
  | .helpCell => .ok st

/-- Split a flag body at the first `=` from position 1 onward (the name
scan of `parseOne`; the first character was already checked not to be
`=`). -/
def splitEqAux : List Char → List Char × Option (List Char)
  | [] => ([], none)
  | '=' :: rest => ([], some rest)
  | c :: rest =>
    let (n, v) := splitEqAux rest
    (c :: n, v)

/-- Split `name[=value]` keeping the first character unconditionally. -/
def splitEqName : List Char → List Char × Option (List Char)
  | [] => ([], none)
  | c :: rest =>
    let (n, v) := splitEqAux rest
    (c :: n, v)

/-- Model of the flag package's parse loop (`FlagSet.Parse` /
`parseOne`): a token shorter than two characters or without a leading
dash stops parsing (remaining tokens are positional); `--` terminates;
boolean flags take no value token (bare presence sets them true, an
inline `=value` is parsed as a boolean); other flags take `=value` or
the next token; unknown names are a hard error.  The help/h switches
are always registered by `NewParser`, so the flag package's `ErrHelp`
branch is unreachable here. -/
def flagParseLoop (regs : List FlagReg) : List String → FlagState → Except String FlagState
  | [], st => .ok st
  | s :: rest, st =>
    match s.data with
    | '-' :: tail =>
      match tail with
      | [] => .ok st
      | t1 :: t2 =>
        let (nameCs0, isDouble) := if t1 = '-' then (t2, true) else (t1 :: t2, false)
        match nameCs0 with
        | [] =>
          if isDouble then .ok st else .ok st
        | c0 :: cs0 =>
          if c0 = '-' ∨ c0 = '=' then .error ("bad flag syntax: " ++ s)
          else
            let (nameCs, valOpt) := splitEqName (c0 :: cs0)
            let name := String.mk nameCs
            match lookupReg regs name with
            | none => .error ("flag provided but not defined: -" ++ name)
            | some handler =>
              match handler with
              | .boolCell =>
                match valOpt with
                | some vcs =>
                  match goParseBool (String.mk vcs) with
                  | .error e =>
                    .error ("invalid boolean value " ++ goQuote (String.mk vcs) ++
                      " for -" ++ name ++ ": " ++ e)
                  | .ok b => flagParseLoop regs rest (markSet name (setBoolCell st name b))
                | none => flagParseLoop regs rest (markSet name (setBoolCell st name true))
              | .helpCell =>
                match valOpt with
                | some vcs =>
                  match goParseBool (String.mk vcs) with
                  | .error e =>
                    .error ("invalid boolean value " ++ goQuote (String.mk vcs) ++
                      " for -" ++ name ++ ": " ++ e)
                  | .ok b => flagParseLoop regs rest (markSet name { st with showHelp := b })
                | none => flagParseLoop regs rest (markSet name { st with showHelp := true })
              | _ =>
                match valOpt with
                | some vcs =>
                  match runHandler handler (String.mk vcs) st with
                  | .error e =>
                    .error ("invalid value " ++ goQuote (String.mk vcs) ++ " for flag -" ++
                      name ++ ": " ++ e)
                  | .ok st2 => flagParseLoop regs rest (markSet name st2)
                | none =>
                  match rest with
                  | [] => .error ("flag needs an argument: -" ++ name)
                  | v :: rest2 =>
                    match runHandler handler v st with
                    | .error e =>
                      .error ("invalid value " ++ goQuote v ++ " for flag -" ++
                        name ++ ": " ++ e)
                    | .ok st2 => flagParseLoop regs rest2 (markSet name st2)
    | _ => .ok st

/-- Insert into an ascending list of strings (for the lexicographic
iteration order of `FlagSet.Visit`). -/
def insertSorted (s : String) : List String → List String
  | [] => [s]
  | t :: rest => if t < s then t :: insertSorted s rest else s :: t :: rest

/-- Sort flag names lexicographically, as `sortFlags` does. -/
def sortStrings : List String → List String
  | [] => []
  | s :: rest => insertSorted s (sortStrings rest)

/-- The body of the `Visit` callback in `Parse` (source lines 105-117):
for a set boolean field flag, write `FormatBool` of its cell under the
primary CLI name of every field that lists the flag among its
aliases. -/
def visitWriteBool (fields : List fieldInfo) (name : String) (b : Bool)
    (fv : List (String × String)) : List (String × String) :=
  fields.foldl (fun acc f =>
    if f.CliNames.contains name then (f.CliName, goFormatBool b) :: acc else acc) fv

/-- Model of the `Visit` pass: set flags are visited in lexicographic
order; only boolean field flags (those with a `boolFlags` cell) write
into `flagValues`. -/
def visitBools (fields : List fieldInfo) (st : FlagState) : List (String × String) :=
  (sortStrings st.setNames).foldl (fun fv name =>
    match List.lookup name st.boolValues with
    | some b => visitWriteBool fields name b fv
    | none => fv) st.flagValues

/-- Outcome of one `Parser.Parse` call: help requested (the source
prints help and exits), success with the populated record, or an error
together with the record as mutated so far. -/
inductive ParseOutcome where
  | help
  | ok (record : Record)
  | err (msg : String) (record : Record)
deriving DecidableEq

/-- Model of `Parser.Parse` (source lines 82-121): walk the struct,
register flags, parse the CLI tokens, honour `--help`, fold set boolean
flags into `flagValues`, then apply values with CLI > Env > Default
precedence. -/
def parserParse (opts : ParserOptions) (strut : List GoStructField) (argv : List String)
    (env : String → String) : ParseOutcome :=
  let fields := walkListAux opts "" strut
  let regs := registerFlags fields
  match flagParseLoop regs argv (initFlagState regs) with
  | .error e => .err e (zeroRecord strut)
  | .ok st =>
    if st.showHelp then .help
    else
      let fv := visitBools fields st
      match applyValues fields fv env (zeroRecord strut) with
      | (r, none) => .ok r
      | (r, some e) => .err e r

/-- Fixture descriptor (an `int` field with env, flag aliases and a
default), used by concrete witnesses below. -/
def portField : fieldInfo :=
  ⟨"PORT", "port", ["port", "p"], "8080", false, "Server port", "Port", .intK⟩

/-- Fixture descriptor (a required `string` field with no default),
used by concrete witnesses below. -/
def reqField : fieldInfo :=
  ⟨"API_KEY", "api-key", ["api-key"], "", true, "API key", "APIKey", .stringK⟩

/-- Fixture descriptor (required, environment-only), used by concrete
witnesses below. -/
def secretField : fieldInfo :=
  ⟨"SECRET", "", [], "", true, "", "Secret", .stringK⟩

/-- Fixture descriptor (required, flag-only), used by concrete
witnesses below. -/
def tokenField : fieldInfo :=
  ⟨"", "token", ["token"], "", true, "", "Token", .stringK⟩

/-- Fixture descriptor of an unsupported kind (Go `int64`), used by
concrete witnesses below. -/
def int64Field : fieldInfo :=
  ⟨"INT64_VAL", "int64", ["int64"], "", false, "", "Int64Val", .int64K⟩

/-- Default parser options (no options passed to `NewParser`). -/
def opts0 : ParserOptions :=
  ⟨false, false, ""⟩

/-- Fixture descriptor (a `[]string` field), used by concrete witnesses
below. -/
def hostsField : fieldInfo :=
  ⟨"HOSTS", "hosts", ["hosts"], "", false, "", "Hosts", .sliceK .stringK⟩

/-- Fixture descriptor (an `int` field whose default does not parse),
used by concrete witnesses below. -/
def badIntField : fieldInfo :=
  ⟨"NUM", "num", ["num"], "x9", false, "", "Num", .intK⟩

/-- Fixture descriptor (a `float32` field whose default is within
float64 range but beyond float32 range), used to settle the
parse-width question. -/
def pctField : fieldInfo :=
  ⟨"PERCENTAGE", "percentage", ["percentage"], "1e39", false, "", "Percentage", .float32K⟩

/-- The descriptor produced by the walk for a boolean leaf named `w`
with explicit flag tag `n` and no other tags, under default options. -/
def boolInfo (w n : String) : fieldInfo :=
  ⟨goToUpper (replaceChar '.' '_' w), n, [n], "", false, "", w, .boolK⟩

theorem strDataAppend (a b : String) : (a ++ b).data = a.data ++ b.data := rfl

theorem strMkData (s : String) : String.mk s.data = s := rfl

theorem strDataNilIff (s : String) : s.data = [] ↔ s = "" := by
  constructor
  · intro h
    cases s with
    | mk data =>
      cases h
      rfl
  · intro h
    subst h
    rfl

theorem clearRequired_resolveRaw (fv : List (String × String)) (env : String → String)
    (f : fieldInfo) : resolveRaw fv env { f with Required := false } = resolveRaw fv env f := by
  cases f
  rfl

theorem clearRequired_setFieldValue (f : fieldInfo) (v : String) (r : Record) :
    setFieldValue { f with Required := false } v r = setFieldValue f v r := by
  cases f
  rfl

theorem setErr_none_ok (f : fieldInfo) (v : String) (r : Record) (h : setErr f v = none) :
    setFieldValue f v r = .ok (applyOne f v r) := by
  unfold setErr at h
  unfold applyOne
  cases htyp : f.typ <;> simp only [setFieldValue, htyp] at h ⊢
  case intK => cases hp : goAtoi v <;> simp [hp] at h ⊢
  case float32K => cases hp : goParseFloat 64 v <;> simp [hp] at h ⊢
  case float64K => cases hp : goParseFloat 64 v <;> simp [hp] at h ⊢
  case boolK => cases hp : goParseBool v <;> simp [hp] at h ⊢
  case sliceK elem => by_cases he : elem = .stringK <;> simp [he]

theorem setErr_some_error (f : fieldInfo) (v : String) (r : Record) (e : String)
    (h : setErr f v = some e) : setFieldValue f v r = .error e := by
  unfold setErr at h
  cases htyp : f.typ <;> simp only [setFieldValue, htyp] at h ⊢
  case stringK => simp at h
  case intK => cases hp : goAtoi v <;> simp [hp] at h ⊢; exact h
  case float32K => cases hp : goParseFloat 64 v <;> simp [hp] at h ⊢; exact h
  case float64K => cases hp : goParseFloat 64 v <;> simp [hp] at h ⊢; exact h
  case boolK => cases hp : goParseBool v <;> simp [hp] at h ⊢; exact h
  case sliceK elem => by_cases he : elem = .stringK <;> simp [he] at h
  case int64K => simp at h
  case uintK => simp at h
  case otherK => simp at h

theorem violationsOf_cons (fv : List (String × String)) (env : String → String)
    (f : fieldInfo) (rest : List fieldInfo) :
    violationsOf fv env (f :: rest) =
      (if f.Required ∧ resolveRaw fv env f = none then [fmtMissing f] else []) ++
        violationsOf fv env rest := by
  unfold violationsOf
  rw [List.filter_cons]
  by_cases hreq : f.Required = true
  · cases hres : resolveRaw fv env f <;> simp [hreq, hres, Option.isNone]
  · simp at hreq
    simp [hreq]

theorem recLookup_recSet_ne (r : Record) (fp path : String) (gv : GoValue)
    (h : path ≠ fp) : recLookup (recSet r fp gv) path = recLookup r path := by
  simp [recLookup, recSet, List.lookup, beq_eq_false_iff_ne.mpr h]

theorem applyOne_untouched (f : fieldInfo) (v : String) (r : Record) (path : String)
    (h : path ≠ f.FieldPath) : recLookup (applyOne f v r) path = recLookup r path := by
  unfold applyOne
  cases htyp : f.typ <;> simp only [setFieldValue, htyp]
  case stringK => exact recLookup_recSet_ne r f.FieldPath path _ h
  case intK =>
    cases hp : goAtoi v
    · rfl
    · exact recLookup_recSet_ne r f.FieldPath path _ h
  case float32K =>
    cases hp : goParseFloat 64 v
    · rfl
    · exact recLookup_recSet_ne r f.FieldPath path _ h
  case float64K =>
    cases hp : goParseFloat 64 v
    · rfl
    · exact recLookup_recSet_ne r f.FieldPath path _ h
  case boolK =>
    cases hp : goParseBool v
    · rfl
    · exact recLookup_recSet_ne r f.FieldPath path _ h
  case sliceK elem =>
    by_cases he : elem = .stringK <;> simp [he]
    exact recLookup_recSet_ne r f.FieldPath path _ h

theorem applyValuesLoop_untouched (fv : List (String × String)) (env : String → String) :
    ∀ (fields : List fieldInfo) (r : Record) (missing : List String) (path : String),
      path ∉ fields.map fieldInfo.FieldPath →
      recLookup (applyValuesLoop fv env fields r missing).1 path = recLookup r path := by
  intro fields
  induction fields with
  | nil => intro r missing path _; rfl
  | cons f rest ih =>
    intro r missing path hpath
    have hne : path ≠ f.FieldPath := by
      intro hcontra
      exact hpath (by simp [hcontra])
    have hrest : path ∉ rest.map fieldInfo.FieldPath := by
      intro hcontra
      exact hpath (by simp [hcontra])
    cases hres : resolveRaw fv env f with
    | none =>
      simp only [applyValuesLoop, hres]
      split <;> exact ih _ _ path hrest
    | some v =>
      simp only [applyValuesLoop, hres]
      rw [if_neg (by simp)]
      cases hsv : setFieldValue f v r with
      | error e => rfl
      | ok r2 =>
        have hao : applyOne f v r = r2 := by
          unfold applyOne
          rw [hsv]
        rw [ih r2 missing path hrest, ← hao, applyOne_untouched f v r path hne]

mutual

theorem mem_walkField (opts : ParserOptions) (pathPfx : String) (g : GoStructField) :
    ∀ f ∈ walkField opts pathPfx g,
      f.EnvName ≠ "" ∨ f.CliName ≠ "" ∨ f.DefaultVal ≠ "" := by
  cases g with
  | leaf name tags k settable =>
    intro f hf
    simp only [walkField] at hf
    split at hf
    · split at hf
      · simp only [List.mem_singleton] at hf
        subst hf
        assumption
      · simp at hf
    · simp at hf
  | nested name fs settable =>
    intro f hf
    simp only [walkField] at hf
    split at hf
    · exact mem_walkListAux opts (mkPath pathPfx name) fs f hf
    · simp at hf

theorem mem_walkListAux (opts : ParserOptions) (pathPfx : String) (l : List GoStructField) :
    ∀ f ∈ walkListAux opts pathPfx l,
      f.EnvName ≠ "" ∨ f.CliName ≠ "" ∨ f.DefaultVal ≠ "" := by
  cases l with
  | nil =>
    intro f hf
    simp [walkListAux] at hf
  | cons g rest =>
    intro f hf
    simp only [walkListAux] at hf
    rcases List.mem_append.mp hf with h | h
    · exact mem_walkField opts pathPfx g f h
    · exact mem_walkListAux opts pathPfx rest f h

end

theorem hasPfx_append (p b : String) : hasPfx (p ++ b) p = true := by
  unfold hasPfx
  rw [strDataAppend]
  exact List.isPrefixOf_iff_prefix.mpr (List.prefix_append p.data b.data)

theorem splitChar_ne_nil (sep : Char) : ∀ cs, splitChar sep cs ≠ [] := by
  intro cs
  cases cs with
  | nil => simp [splitChar]
  | cons c rest =>
    simp only [splitChar]
    cases h : splitChar sep rest with
    | nil => simp
    | cons g gs => by_cases hcs : c = sep <;> simp [hcs]

theorem splitChar_nosep (sep : Char) : ∀ cs, sep ∉ cs → splitChar sep cs = [cs] := by
  intro cs
  induction cs with
  | nil => intro _; rfl
  | cons c rest ih =>
    intro h
    have hc : c ≠ sep := by
      intro hcontra
      exact h (by simp [hcontra])
    have hrest : sep ∉ rest := by
      intro hcontra
      exact h (by simp [hcontra])
    simp only [splitChar, ih hrest]
    simp [hc]

theorem splitChar_append (sep : Char) :
    ∀ a b, sep ∉ a → splitChar sep (a ++ sep :: b) = a :: splitChar sep b := by
  intro a
  induction a with
  | nil =>
    intro b _
    simp only [List.nil_append, splitChar]
    cases h : splitChar sep b with
    | nil => exact absurd h (splitChar_ne_nil sep b)
    | cons g gs => simp
  | cons c rest ih =>
    intro b h
    have hc : c ≠ sep := by
      intro hcontra
      exact h (by simp [hcontra])
    have hrest : sep ∉ rest := by
      intro hcontra
      exact h (by simp [hcontra])
    simp only [List.cons_append, splitChar, List.append_eq]
    rw [ih b hrest]
    simp [hc]

theorem splitEqAux_no_eq : ∀ cs, '=' ∉ cs → splitEqAux cs = (cs, none) := by
  intro cs
  induction cs with
  | nil => intro _; rfl
  | cons c rest ih =>
    intro h
    have hc : c ≠ '=' := by
      intro hcontra
      exact h (by simp [hcontra])
    have hrest : '=' ∉ rest := by
      intro hcontra
      exact h (by simp [hcontra])
    simp only [splitEqAux]
    rw [ih hrest]

theorem applyValuesLoop_spec (fv : List (String × String)) (env : String → String)
    (fields : List fieldInfo) :
    ∀ r missing,
      (∀ f ∈ fields, ∀ v, resolveRaw fv env f = some v → setErr f v = none) →
      applyValuesLoop fv env fields r missing =
        (applyRecord fv env fields r,
          if (missing ++ violationsOf fv env fields).isEmpty then none
          else some (aggMsg (missing ++ violationsOf fv env fields))) := by
  induction fields with
  | nil =>
    intro r missing _
    simp [applyValuesLoop, applyRecord, violationsOf]
  | cons f rest ih =>
    intro r missing hok
    have hokf := hok f (by simp)
    have hokrest : ∀ g ∈ rest, ∀ v, resolveRaw fv env g = some v → setErr g v = none := by
      intro g hg v hv
      exact hok g (by simp [hg]) v hv
    rw [violationsOf_cons]
    cases hres : resolveRaw fv env f with
    | none =>
      by_cases hreq : f.Required = true
      · simp only [applyValuesLoop, hres, hreq]
        rw [if_pos (by simp [hreq])]
        rw [ih r (missing ++ [fmtMissing f]) hokrest]
        simp only [applyRecord, hres]
        simp [hreq, hres, List.append_assoc]
      · simp at hreq
        simp only [applyValuesLoop, hres]
        rw [if_neg (by simp [hreq])]
        rw [ih r missing hokrest]
        simp only [applyRecord, hres]
        simp [hreq, hres]
    | some v =>
      have hset := setErr_none_ok f v r (hokf v hres)
      simp only [applyValuesLoop, hres, hset]
      rw [if_neg (by simp)]
      rw [ih (applyOne f v r) missing hokrest]
      simp only [applyRecord, hres]
      simp [hres]

theorem strExt (a b : String) (h : a.data = b.data) : a = b := by
  cases a
  cases b
  cases h
  rfl

theorem strIntercalateOne (s a : String) : String.intercalate s [a] = a := rfl

theorem strIntercalateTwo (s a b : String) : String.intercalate s [a, b] = a ++ s ++ b := rfl

theorem strAppendNeEmpty (p b : String) (hp : p ≠ "") : p ++ b ≠ "" := by
  intro h
  apply hp
  have hdata : (p ++ b).data = [] := by
    rw [h]
  rw [strDataAppend] at hdata
  rcases List.append_eq_nil.mp hdata with ⟨h1, _⟩
  exact (strDataNilIff p).mp h1

theorem flatMapConstNil {α : Type} (l : List α) :
    (l.flatMap fun _ => ([] : List FlagReg)) = [] := by
  induction l with
  | nil => rfl
  | cons x rest ih => simp [List.flatMap_cons, ih]

theorem setErr_clearRequired (f : fieldInfo) (v : String) :
    setErr { f with Required := false } v = setErr f v := by
  unfold setErr
  rw [clearRequired_setFieldValue]

theorem applyOne_clearRequired (f : fieldInfo) (v : String) (r : Record) :
    applyOne { f with Required := false } v r = applyOne f v r := by
  unfold applyOne
  rw [clearRequired_setFieldValue]

theorem violationsOf_clearRequired (fv : List (String × String)) (env : String → String)
    (fields : List fieldInfo) :
    violationsOf fv env (fields.map fun f => { f with Required := false }) = [] := by
  induction fields with
  | nil => rfl
  | cons f rest ih =>
    rw [List.map_cons, violationsOf_cons]
    simp [ih]

theorem applyRecord_clearRequired (fv : List (String × String)) (env : String → String) :
    ∀ (fields : List fieldInfo) (r : Record),
      applyRecord fv env (fields.map fun f => { f with Required := false }) r =
        applyRecord fv env fields r := by
  intro fields
  induction fields with
  | nil => intro r; rfl
  | cons f rest ih =>
    intro r
    rw [List.map_cons]
    simp only [applyRecord, clearRequired_resolveRaw]
    cases hres : resolveRaw fv env f with
    | none => exact ih r
    | some v =>
      simp only [applyOne_clearRequired]
      exact ih (applyOne f v r)

theorem applyValuesLoop_abort (fv : List (String × String)) (env : String → String)
    (f : fieldInfo) (v e : String) (hres : resolveRaw fv env f = some v)
    (herr : setErr f v = some e) :
    ∀ (pre : List fieldInfo) (post : List fieldInfo) (r : Record) (missing : List String),
      (∀ g ∈ pre, ∀ w, resolveRaw fv env g = some w → setErr g w = none) →
      (applyValuesLoop fv env (pre ++ f :: post) r missing).2 =
        some ("error setting field " ++ f.FieldPath ++ ": " ++ e) := by
  intro pre
  induction pre with
  | nil =>
    intro post r missing _
    simp only [List.nil_append, applyValuesLoop, hres, setErr_some_error f v r e herr]
  | cons g pre ih =>
    intro post r missing hok
    have hokg := hok g (by simp)
    have hokpre : ∀ x ∈ pre, ∀ w, resolveRaw fv env x = some w → setErr x w = none := by
      intro x hx w hw
      exact hok x (by simp [hx]) w hw
    rw [List.cons_append]
    cases hresg : resolveRaw fv env g with
    | none =>
      simp only [applyValuesLoop, hresg]
      split <;> exact ih post _ _ hokpre
    | some w =>
      have hset := setErr_none_ok g w r (hokg w hresg)
      simp only [applyValuesLoop, hresg, hset]
      rw [if_neg (by simp)]
      exact ih post _ _ hokpre

/-- C1: for every descriptor, the resolved raw value follows strict
precedence CLI > Environment > Default: a registered non-empty CLI value
wins; otherwise a non-empty environment lookup for the descriptor's env
name wins; otherwise the non-empty default is used verbatim.  The last
two conjuncts characterise "absent or empty" at the CLI and environment
tiers. -/
theorem c1_precedence (fv : List (String × String)) (env : String → String) (f : fieldInfo) :
    (∀ v, f.CliName ≠ "" → List.lookup f.CliName fv = some v → v ≠ "" →
      resolveRaw fv env f = some v)
    ∧ (cliLookup fv f = none → f.EnvName ≠ "" → env f.EnvName ≠ "" →
      resolveRaw fv env f = some (env f.EnvName))
    ∧ (cliLookup fv f = none → envLookup env f = none → f.DefaultVal ≠ "" →
      resolveRaw fv env f = some f.DefaultVal)
    ∧ (cliLookup fv f = none ↔
      f.CliName = "" ∨ List.lookup f.CliName fv = none ∨ List.lookup f.CliName fv = some "")
    ∧ (envLookup env f = none ↔ f.EnvName = "" ∨ env f.EnvName = "") := by
  refine ⟨?_, ?_, ?_, ?_, ?_⟩
  · intro v hc hl hv
    have hcli : cliLookup fv f = some v := by
      simp [cliLookup, hc, hl, hv]
    simp [resolveRaw, hcli]
  · intro h1 h2 h3
    simp [resolveRaw, h1, envLookup, h2, h3]
  · intro h1 h2 h3
    simp [resolveRaw, h1, h2, defaultLookup, h3]
  · by_cases hc : f.CliName = ""
    · simp [cliLookup, hc]
    · cases hl : List.lookup f.CliName fv with
      | none => simp [cliLookup, hc, hl]
      | some v => by_cases hv : v = "" <;> simp [cliLookup, hc, hl, hv]
  · by_cases he : f.EnvName = "" <;> by_cases hev : env f.EnvName = "" <;>
      simp [envLookup, he, hev]

/-- C1 witness: concrete instantiation of each precedence conjunct. -/
theorem c1_precedence_witness :
    resolveRaw [("port", "9000")] (fun _ => "7") portField = some "9000"
    ∧ resolveRaw [] (fun _ => "7") portField = some "7"
    ∧ resolveRaw [] (fun _ => "") portField = some "8080" := by
  refine ⟨?_, ?_, ?_⟩
  · exact (c1_precedence [("port", "9000")] (fun _ => "7") portField).1 "9000"
      (by decide) (by decide) (by decide)
  · exact (c1_precedence [] (fun _ => "7") portField).2.1 (by decide) (by decide) (by decide)
  · exact (c1_precedence [] (fun _ => "") portField).2.2.1 (by decide) (by decide) (by decide)

/-- C2: at every source tier an empty string is indistinguishable from
an absent value: an empty recorded CLI value behaves like no CLI value
at all, an empty environment lookup behaves like the empty environment,
and an empty default yields no value when the higher tiers are
absent/empty. -/
theorem c2_empty_equals_absent (fv : List (String × String)) (env : String → String)
    (f : fieldInfo) :
    (List.lookup f.CliName fv = some "" → resolveRaw fv env f = resolveRaw [] env f)
    ∧ (env f.EnvName = "" → resolveRaw fv env f = resolveRaw fv (fun _ => "") f)
    ∧ (f.DefaultVal = "" → cliLookup fv f = none → envLookup env f = none →
      resolveRaw fv env f = none) := by
  refine ⟨?_, ?_, ?_⟩
  · intro h
    have h1 : cliLookup fv f = none := by
      by_cases hc : f.CliName = "" <;> simp [cliLookup, hc, h]
    have h2 : cliLookup [] f = none := by
      by_cases hc : f.CliName = "" <;> simp [cliLookup, hc]
    simp [resolveRaw, h1, h2]
  · intro h
    have h1 : envLookup env f = none := by
      simp [envLookup, h]
    have h2 : envLookup (fun _ => "") f = none := by
      simp [envLookup]
    cases hc : cliLookup fv f <;> simp [resolveRaw, hc, h1, h2]
  · intro h1 h2 h3
    simp [resolveRaw, h2, h3, defaultLookup, h1]

/-- C2 witness: an empty CLI value, an empty environment value and an
empty default all fall through, so the resolution of this descriptor
yields its default / environment / nothing respectively. -/
theorem c2_empty_equals_absent_witness :
    resolveRaw [("port", "")] (fun _ => "") portField = resolveRaw [] (fun _ => "") portField
    ∧ resolveRaw [] (fun _ => "") portField = resolveRaw [] (fun _ => "") portField
    ∧ resolveRaw [] (fun _ => "") reqField = none := by
  refine ⟨?_, ?_, ?_⟩
  · exact (c2_empty_equals_absent [("port", "")] (fun _ => "") portField).1 (by decide)
  · exact (c2_empty_equals_absent [] (fun _ => "") portField).2.1 (by decide)
  · exact (c2_empty_equals_absent [] (fun _ => "") reqField).2.2 (by decide) (by decide)
      (by decide)

/-- C3: when at least one required descriptor resolves no value (and no
coercion error occurs), every descriptor is still processed and the
single returned error is the aggregated message: "missing required
fields:" followed by one entry per violation in descriptor-list order;
an entry is "path (env: NAME, flag: --name)", omitting the env clause
when the descriptor has no env name and the flag clause when it has no
CLI name. -/
theorem c3_aggregated_missing (fv : List (String × String)) (env : String → String)
    (fields : List fieldInfo) (r : Record)
    (hok : ∀ f ∈ fields, ∀ v, resolveRaw fv env f = some v → setErr f v = none)
    (hmiss : violationsOf fv env fields ≠ []) :
    (applyValues fields fv env r).2 =
      some ("missing required fields:\n  - " ++
        String.intercalate "\n  - " (violationsOf fv env fields))
    ∧ (∀ g : fieldInfo,
      (g.EnvName ≠ "" → g.CliName ≠ "" →
        fmtMissing g =
          g.FieldPath ++ " (env: " ++ g.EnvName ++ ", flag: --" ++ g.CliName ++ ")")
      ∧ (g.EnvName ≠ "" → g.CliName = "" →
        fmtMissing g = g.FieldPath ++ " (env: " ++ g.EnvName ++ ")")
      ∧ (g.EnvName = "" → g.CliName ≠ "" →
        fmtMissing g = g.FieldPath ++ " (flag: --" ++ g.CliName ++ ")")) := by
  constructor
  · unfold applyValues
    rw [applyValuesLoop_spec fv env fields r [] hok]
    simp only [List.nil_append]
    rw [if_neg (by simpa using hmiss)]
    rfl
  · intro g
    refine ⟨?_, ?_, ?_⟩
    · intro hE hC
      unfold fmtMissing fmtMissingSources
      rw [if_pos hE, if_pos hC]
      simp only [List.singleton_append]
      rw [strIntercalateTwo]
      have l1 : (" (env: " : String) = " (" ++ "env: " := rfl
      have l2 : (", flag: --" : String) = ", " ++ "flag: --" := rfl
      rw [l1, l2]
      simp only [String.append_assoc]
    · intro hE hC
      unfold fmtMissing fmtMissingSources
      rw [if_pos hE, if_neg (by simp [hC])]
      simp only [List.append_nil]
      rw [strIntercalateOne]
      have l1 : (" (env: " : String) = " (" ++ "env: " := rfl
      rw [l1]
      simp only [String.append_assoc]
    · intro hE hC
      unfold fmtMissing fmtMissingSources
      rw [if_neg (by simp [hE]), if_pos hC]
      simp only [List.nil_append]
      rw [strIntercalateOne]
      have l1 : (" (flag: --" : String) = " (" ++ "flag: --" := rfl
      rw [l1]
      simp only [String.append_assoc]

/-- C3 witness: three required descriptors (env+flag, env-only,
flag-only), all missing — the single error lists all three with their
applicable source clauses. -/
theorem c3_aggregated_missing_witness :
    (applyValues [reqField, secretField, tokenField] [] (fun _ => "") []).2 =
      some ("missing required fields:\n  - " ++
        String.intercalate "\n  - "
          (violationsOf [] (fun _ => "") [reqField, secretField, tokenField])) := by
  have h := c3_aggregated_missing [] (fun _ => "") [reqField, secretField, tokenField] []
    (by
      intro f hf v hv
      have h0 : resolveRaw [] (fun _ => "") f = none := by
        fin_cases hf <;> decide
      rw [h0] at hv
      exact Option.noConfusion hv)
    (by decide)
  exact h.1

/-- C9: when resolution fails only with the aggregated missing-required
error, every descriptor that did resolve a value has already been
written: the record returned with the error equals the record produced
by the very same descriptor list with all required flags cleared (which
succeeds). -/
theorem c9_partial_population (fv : List (String × String)) (env : String → String)
    (fields : List fieldInfo) (r : Record)
    (hok : ∀ f ∈ fields, ∀ v, resolveRaw fv env f = some v → setErr f v = none)
    (hmiss : violationsOf fv env fields ≠ []) :
    applyValues fields fv env r =
      (applyRecord fv env fields r, some (aggMsg (violationsOf fv env fields)))
    ∧ applyValues (fields.map fun f => { f with Required := false }) fv env r =
      (applyRecord fv env fields r, none) := by
  constructor
  · unfold applyValues
    rw [applyValuesLoop_spec fv env fields r [] hok]
    simp only [List.nil_append]
    rw [if_neg (by simpa using hmiss)]
  · unfold applyValues
    have hok2 : ∀ g ∈ fields.map (fun f => { f with Required := false }), ∀ v,
        resolveRaw fv env g = some v → setErr g v = none := by
      intro g hg v hv
      rcases List.mem_map.mp hg with ⟨f0, hf0, rfl⟩
      rw [clearRequired_resolveRaw] at hv
      rw [setErr_clearRequired]
      exact hok f0 hf0 v hv
    rw [applyValuesLoop_spec fv env _ r [] hok2]
    rw [violationsOf_clearRequired]
    simp [applyRecord_clearRequired]

/-- C9 witness: one resolvable descriptor plus one missing required
descriptor — the error case returns the same record as the
all-optional run, with the default value written. -/
theorem c9_partial_population_witness :
    applyValues [portField, secretField] [] (fun _ => "") [] =
      (applyRecord [] (fun _ => "") [portField, secretField] [],
        some (aggMsg (violationsOf [] (fun _ => "") [portField, secretField]))) := by
  have h := c9_partial_population [] (fun _ => "") [portField, secretField] []
    (by
      intro f hf v hv
      fin_cases hf
      · have h0 : resolveRaw [] (fun _ => "") portField = some "8080" := by decide
        rw [h0] at hv
        cases hv
        decide
      · have h0 : resolveRaw [] (fun _ => "") secretField = none := by decide
        rw [h0] at hv
        exact Option.noConfusion hv)
    (by decide)
  exact h.1

/-- C10: for a descriptor whose target kind is outside the supported
set (for example int64, uint, or a slice of non-strings), assignment
returns no error and leaves the record unchanged, and (for the
non-slice unsupported kinds) flag registration registers nothing. -/
theorem c10_unsupported_silent (f : fieldInfo) (v : String) (r : Record)
    (h : supportedKind f.typ = false) :
    setFieldValue f v r = .ok r
    ∧ ((f.typ = .int64K ∨ f.typ = .uintK ∨ f.typ = .otherK) → regsOfField f = []) := by
  constructor
  · cases htyp : f.typ
    case stringK => rw [htyp] at h; exact absurd h (by decide)
    case intK => rw [htyp] at h; exact absurd h (by decide)
    case float32K => rw [htyp] at h; exact absurd h (by decide)
    case float64K => rw [htyp] at h; exact absurd h (by decide)
    case boolK => rw [htyp] at h; exact absurd h (by decide)
    case sliceK elem =>
      rw [htyp] at h
      have he : elem ≠ .stringK := by
        intro hcontra
        rw [hcontra] at h
        exact absurd h (by decide)
      simp [setFieldValue, htyp, he]
    case int64K => simp [setFieldValue, htyp]
    case uintK => simp [setFieldValue, htyp]
    case otherK => simp [setFieldValue, htyp]
  · intro ht
    rcases ht with h1 | h1 | h1 <;> unfold regsOfField <;> rw [h1] <;>
      split <;> simp [flatMapConstNil]

/-- C10 witness: an int64 descriptor — assignment of an arbitrary raw
value is silently discarded and no flag is registered. -/
theorem c10_unsupported_silent_witness :
    setFieldValue int64Field "abc" [] = .ok [] ∧ regsOfField int64Field = [] :=
  ⟨(c10_unsupported_silent int64Field "abc" [] (by decide)).1,
   (c10_unsupported_silent int64Field "abc" [] (by decide)).2 (Or.inl (by decide))⟩

/-- C6: string-list coercion splits the raw value on commas, trims each
element and assigns the ordered sequence; `"a, b ,c"` yields
`["a","b","c"]`; and for any non-empty list of already-trimmed,
comma-free elements, splitting their comma join returns exactly that
list — order and duplicates preserved. -/
theorem c6_string_list_coercion :
    (∀ (f : fieldInfo) (v : String) (r : Record), f.typ = .sliceK .stringK →
      setFieldValue f v r =
        .ok (recSet r f.FieldPath (.vstrList ((goSplit v ',').map goTrimSpace))))
    ∧ (goSplit "a, b ,c" ',').map goTrimSpace = ["a", "b", "c"]
    ∧ (∀ xs : List String, xs ≠ [] →
      (∀ x ∈ xs, goTrimSpace x = x ∧ ',' ∉ x.data) →
      (goSplit (joinComma xs) ',').map goTrimSpace = xs) := by
  refine ⟨?_, by decide, ?_⟩
  · intro f v r h
    simp [setFieldValue, h]
  · intro xs
    induction xs with
    | nil => intro h _; exact absurd rfl h
    | cons x rest ih =>
      intro _ hclean
      have hx := hclean x (by simp)
      cases rest with
      | nil =>
        unfold joinComma goSplit
        rw [splitChar_nosep ',' x.data hx.2]
        simp [strMkData, hx.1]
      | cons y t =>
        have hJ : joinComma (x :: y :: t) = x ++ "," ++ joinComma (y :: t) := rfl
        have hdata : (x ++ "," ++ joinComma (y :: t)).data
            = x.data ++ ',' :: (joinComma (y :: t)).data := by
          rw [strDataAppend, strDataAppend]
          simp
        have ihr := ih (by simp) (fun z hz => hclean z (by simp [hz]))
        unfold goSplit
        rw [hJ, hdata, splitChar_append ',' x.data _ hx.2]
        unfold goSplit at ihr
        simp only [List.map_cons, strMkData, hx.1, ihr]

/-- C6 witness: concrete coercion of `"x,y"` into an ordered slice, and
the round trip on a list with a duplicate. -/
theorem c6_string_list_coercion_witness :
    setFieldValue hostsField "x,y" [] =
      .ok (recSet [] "Hosts" (.vstrList ["x", "y"]))
    ∧ (goSplit (joinComma ["a", "b", "a"]) ',').map goTrimSpace = ["a", "b", "a"] := by
  constructor
  · have h := c6_string_list_coercion.1 hostsField "x,y" [] (by decide)
    rw [h]
    decide
  · exact c6_string_list_coercion.2.2 ["a", "b", "a"] (by decide) (by decide)

/-- C7: a settable leaf becomes a descriptor exactly when at least one
of env name, CLI name or default is set; every walked descriptor
satisfies that disjunction; and a path that is not in the descriptor
list is never written by resolution. -/
theorem c7_descriptor_inclusion (opts : ParserOptions) :
    (∀ (pathPfx name : String) (tags : GoTags) (k : GoKind),
      walkField opts pathPfx (.leaf name tags k true) =
        (if (parseFieldTags opts tags (mkPath pathPfx name) k).EnvName ≠ ""
            ∨ (parseFieldTags opts tags (mkPath pathPfx name) k).CliName ≠ ""
            ∨ (parseFieldTags opts tags (mkPath pathPfx name) k).DefaultVal ≠ "" then
          [parseFieldTags opts tags (mkPath pathPfx name) k]
        else []))
    ∧ (∀ (pathPfx : String) (strut : List GoStructField) (f : fieldInfo),
      f ∈ walkListAux opts pathPfx strut →
      f.EnvName ≠ "" ∨ f.CliName ≠ "" ∨ f.DefaultVal ≠ "")
    ∧ (∀ (fields : List fieldInfo) (fv : List (String × String)) (env : String → String)
        (r : Record) (path : String), path ∉ fields.map fieldInfo.FieldPath →
      recLookup (applyValues fields fv env r).1 path = recLookup r path) := by
  refine ⟨?_, ?_, ?_⟩
  · intro pathPfx name tags k
    simp [walkField]
  · intro pathPfx strut f hf
    exact mem_walkListAux opts pathPfx strut f hf
  · intro fields fv env r path hpath
    exact applyValuesLoop_untouched fv env fields r [] path hpath

/-- C7 witness: the walked descriptor of a tagged leaf satisfies the
inclusion disjunction, and a record entry outside the descriptor list
is untouched by resolution. -/
theorem c7_descriptor_inclusion_witness :
    (portField.EnvName ≠ "" ∨ portField.CliName ≠ "" ∨ portField.DefaultVal ≠ "")
    ∧ recLookup
        (applyValues [portField] [] (fun _ => "") [("Keep", GoValue.vstr "q")]).1 "Keep"
      = recLookup [("Keep", GoValue.vstr "q")] "Keep" := by
  constructor
  · exact (c7_descriptor_inclusion opts0).2.1 ""
      [GoStructField.leaf "Port" ⟨"PORT", "port,p", "8080", "", "Server port"⟩ .intK true]
      portField (by decide)
  · exact (c7_descriptor_inclusion opts0).2.2 [portField] [] (fun _ => "")
      [("Keep", GoValue.vstr "q")] "Keep" (by decide)

/-- C8: with a non-empty configured prefix, a name already starting
with the prefix is left unchanged, the resulting env name always starts
with the prefix, re-applying the prefix rule changes nothing (never
doubled), and `parseFieldTags` computes its env name by exactly this
rule on the base (explicit-tag or auto-derived) name. -/
theorem c8_env_prefix_once (P name : String) (hP : P ≠ "") :
    (hasPfx name P = true → applyEnvPfx P name = name)
    ∧ (name ≠ "" → hasPfx (applyEnvPfx P name) P = true)
    ∧ applyEnvPfx P (applyEnvPfx P name) = applyEnvPfx P name
    ∧ (∀ (opts : ParserOptions) (tags : GoTags) (path : String) (k : GoKind),
      (parseFieldTags opts tags path k).EnvName =
        applyEnvPfx opts.envPfx (envNameBase opts tags path)) := by
  refine ⟨?_, ?_, ?_, ?_⟩
  · intro h
    unfold applyEnvPfx
    by_cases hn : name = ""
    · simp [hn]
    · simp [hn, hP, h]
  · intro hn
    unfold applyEnvPfx
    rw [if_pos ⟨hn, hP⟩]
    by_cases h : hasPfx name P = true
    · simp [h]
    · simp only [h, if_false]
      exact hasPfx_append P name
  · by_cases hn : name = ""
    · simp [applyEnvPfx, hn]
    · by_cases h : hasPfx name P = true
      · have h1 : applyEnvPfx P name = name := by
          unfold applyEnvPfx
          simp [hn, hP, h]
        rw [h1]
        exact h1
      · have h1 : applyEnvPfx P name = P ++ name := by
          unfold applyEnvPfx
          simp [hn, hP, h]
        rw [h1]
        unfold applyEnvPfx
        rw [if_pos ⟨strAppendNeEmpty P name hP, hP⟩, if_pos (hasPfx_append P name)]
  · intro opts tags path k
    rfl

/-- C8 witness: with prefix `APP_`, an already-prefixed name is left
unchanged and applying the rule twice equals applying it once. -/
theorem c8_env_prefix_once_witness :
    applyEnvPfx "APP_" "APP_HOST" = "APP_HOST"
    ∧ applyEnvPfx "APP_" (applyEnvPfx "APP_" "HOST") = applyEnvPfx "APP_" "HOST" :=
  ⟨(c8_env_prefix_once "APP_" "APP_HOST" (by decide)).1 (by decide),
   (c8_env_prefix_once "APP_" "HOST" (by decide)).2.2.1⟩

set_option maxRecDepth 4000000 in
/-- C4 counterexample: the claim says numeric values are parsed in the
target field's numeric width.  For the float32 descriptor `pctField`
with raw value `"1e39"` a width-32 parse fails with `value out of
range`, so under the claim resolution would abort with an error — yet
the code parses with `ParseFloat(value, 64)` and resolution succeeds
with no error. -/
theorem c4_counterexample :
    (applyValues [pctField] [] (fun _ => "") []).2 = none
    ∧ goParseFloat 32 "1e39" =
      .error "strconv.ParseFloat: parsing \"1e39\": value out of range" := by
  constructor
  · decide
  · decide

/-- C4 amended: integers are parsed as 64-bit (`Atoi`); floating-point
values are parsed in 64-bit width regardless of whether the target is
float32 or float64; a parse failure of the first failing descriptor
aborts the whole resolution immediately (later descriptors and the
missing-required aggregation are skipped) with an error naming the
offending field path, and the underlying strconv message quotes the
invalid raw value. -/
theorem c4_amended_parse_failure (fv : List (String × String)) (env : String → String)
    (r : Record) (pre post : List fieldInfo) (f : fieldInfo) (v e : String)
    (hpre : ∀ g ∈ pre, ∀ w, resolveRaw fv env g = some w → setErr g w = none)
    (hres : resolveRaw fv env f = some v)
    (herr : setErr f v = some e) :
    (applyValues (pre ++ f :: post) fv env r).2 =
      some ("error setting field " ++ f.FieldPath ++ ": " ++ e)
    ∧ (∀ (g : fieldInfo) (w : String), g.typ = .float32K ∨ g.typ = .float64K →
      (setErr g w = none ↔ (goParseFloat 64 w).isOk = true))
    ∧ (∀ (g : fieldInfo) (w : String), g.typ = .intK →
      (setErr g w = none ↔ (goAtoi w).isOk = true))
    ∧ (∀ (w e2 : String), goAtoi w = .error e2 →
      ∃ reason, e2 = "strconv.Atoi: parsing " ++ goQuote w ++ ": " ++ reason)
    ∧ (∀ (b : ℕ) (w e2 : String), goParseFloat b w = .error e2 →
      ∃ reason, e2 = "strconv.ParseFloat: parsing " ++ goQuote w ++ ": " ++ reason) := by
  refine ⟨?_, ?_, ?_, ?_, ?_⟩
  · exact applyValuesLoop_abort fv env f v e hres herr pre post r [] hpre
  · intro g w hg
    rcases hg with hg | hg <;>
      (unfold setErr
       simp only [setFieldValue, hg]
       cases hp : goParseFloat 64 w <;> simp [hp, Except.isOk, Except.toBool])
  · intro g w hg
    unfold setErr
    simp only [setFieldValue, hg]
    cases hp : goAtoi w <;> simp [hp, Except.isOk, Except.toBool]
  · intro w e2 h
    simp only [goAtoi] at h
    repeat' split at h
    all_goals try simp only [Except.error.injEq] at h
    all_goals
      first
      | exact absurd h (by simp)
      | (refine ⟨"invalid syntax", ?_⟩
         rw [← h]
         have l : (": invalid syntax" : String) = ": " ++ "invalid syntax" := rfl
         rw [l]
         simp only [String.append_assoc])
      | (refine ⟨"value out of range", ?_⟩
         rw [← h]
         have l : (": value out of range" : String) = ": " ++ "value out of range" := rfl
         rw [l]
         simp only [String.append_assoc])
  · intro b w e2 h
    simp only [goParseFloat] at h
    repeat' split at h
    all_goals try simp only [Except.error.injEq] at h
    all_goals
      first
      | exact absurd h (by simp)
      | (refine ⟨"invalid syntax", ?_⟩
         rw [← h]
         have l : (": invalid syntax" : String) = ": " ++ "invalid syntax" := rfl
         rw [l]
         simp only [String.append_assoc])
      | (refine ⟨"value out of range", ?_⟩
         rw [← h]
         have l : (": value out of range" : String) = ": " ++ "value out of range" := rfl
         rw [l]
         simp only [String.append_assoc])

/-- C4 amended witness: a list whose second descriptor holds the
unparsable int default `"x9"` (after a successfully-resolved first
descriptor and before a further required descriptor) aborts with the
field-naming message, not with the aggregated missing-required
error. -/
theorem c4_amended_parse_failure_witness :
    (applyValues [portField, badIntField, secretField] [] (fun _ => "") []).2 =
      some ("error setting field " ++ badIntField.FieldPath ++ ": " ++
        "strconv.Atoi: parsing \"x9\": invalid syntax") := by
  have h := c4_amended_parse_failure [] (fun _ => "") [] [portField] [secretField]
    badIntField "x9" "strconv.Atoi: parsing \"x9\": invalid syntax"
    (by
      intro g hg w hw
      fin_cases hg
      have h0 : resolveRaw [] (fun _ => "") portField = some "8080" := by decide
      rw [h0] at hw
      cases hw
      decide)
    (by decide)
    (by decide)
  exact h.1


theorem cliLookup_nil (f : fieldInfo) : cliLookup [] f = none := by
  unfold cliLookup
  split
  · rfl
  · simp [List.lookup]

theorem envLookup_emptyEnv (f : fieldInfo) : envLookup (fun _ => "") f = none := by
  unfold envLookup
  split
  · rfl
  · simp

/-- C5: a boolean descriptor's flag is a presence-only switch: with the
flag absent from the CLI tokens (and no environment or default value),
the field resolves to false; with the flag present bare (no value
token), the field resolves to true.  `w` is the field name and `n` its
(explicitly tagged) flag name, an arbitrary well-formed flag name. -/
theorem c5_bool_presence_switch (w n : String) (c0 : Char) (cs0 : List Char)
    (hn : n.data = c0 :: cs0)
    (hc0 : c0 ≠ '-') (hc0e : c0 ≠ '=') (heq : '=' ∉ cs0)
    (hcomma : ',' ∉ n.data) (htrim : goTrimSpace n = n)
    (hhelp : n ≠ "help") (hh : n ≠ "h") :
    (∃ r, parserParse opts0 [.leaf w ⟨"", n, "", "", ""⟩ .boolK true] [] (fun _ => "") = .ok r
      ∧ recLookup r w = some (.vbool false))
    ∧ (∃ r, parserParse opts0 [.leaf w ⟨"", n, "", "", ""⟩ .boolK true] ["--" ++ n]
        (fun _ => "") = .ok r
      ∧ recLookup r w = some (.vbool true)) := by
  have hnne : n ≠ "" := by
    intro hcontra
    rw [hcontra] at hn
    exact List.noConfusion hn
  have hflag : (splitChar ',' n.data).map (fun cs => goTrimSpace (String.mk cs)) = [n] := by
    rw [splitChar_nosep ',' n.data hcomma]
    simp [strMkData, htrim]
  have hinfo : parseFieldTags opts0 ⟨"", n, "", "", ""⟩ w .boolK = boolInfo w n := by
    unfold parseFieldTags boolInfo
    simp [envNameBase, applyEnvPfx, opts0, hflag, hnne]
  have hfields : walkListAux opts0 "" [.leaf w ⟨"", n, "", "", ""⟩ .boolK true] =
      [boolInfo w n] := by
    simp [walkListAux, walkField, mkPath, hinfo, boolInfo, hnne]
  have hregs : registerFlags [boolInfo w n] =
      [⟨"help", .helpCell⟩, ⟨"h", .helpCell⟩, ⟨n, .boolCell⟩] := by
    simp [registerFlags, regsOfField, boolInfo, hnne]
  have hzero : zeroRecord [.leaf w ⟨"", n, "", "", ""⟩ .boolK true] = [(w, .vbool false)] := by
    simp [zeroRecord, zeroRecordAux, mkPath, zeroValue]
  have hraw0 : resolveRaw [] (fun _ => "") (boolInfo w n) = none := by
    unfold resolveRaw
    rw [cliLookup_nil, envLookup_emptyEnv]
    rfl
  have hcn : (boolInfo w n).CliNames = [n] := rfl
  have hcl : (boolInfo w n).CliName = n := rfl
  have hreq : (boolInfo w n).Required = false := rfl
  constructor
  · refine ⟨[(w, .vbool false)], ?_, ?_⟩
    · unfold parserParse
      rw [hfields]
      simp only [hregs]
      rw [hzero]
      simp [flagParseLoop, initFlagState, initBoolValues, visitBools, sortStrings,
        applyValues, applyValuesLoop, hraw0, hreq]
    · simp [recLookup, List.lookup]
  · have hdata : ("--" ++ n).data = '-' :: '-' :: c0 :: cs0 := by
      rw [strDataAppend, hn]
      rfl
    have hsplitEq : splitEqName (c0 :: cs0) = (c0 :: cs0, none) := by
      simp only [splitEqName]
      rw [splitEqAux_no_eq cs0 heq]
    have hname : String.mk (c0 :: cs0) = n := by
      rw [← hn]
    have hlookupReg : lookupReg [⟨"help", .helpCell⟩, ⟨"h", .helpCell⟩, ⟨n, .boolCell⟩] n =
        some .boolCell := by
      unfold lookupReg
      rw [if_neg (fun hcontra => hhelp hcontra.symm)]
      unfold lookupReg
      rw [if_neg (fun hcontra => hh hcontra.symm)]
      unfold lookupReg
      rw [if_pos rfl]
    refine ⟨recSet [(w, .vbool false)] w (.vbool true), ?_, ?_⟩
    · have hraw1 : resolveRaw [(n, "true")] (fun _ => "") (boolInfo w n) = some "true" := by
        unfold resolveRaw cliLookup
        rw [show (boolInfo w n).CliName = n from rfl]
        rw [if_neg hnne]
        simp [List.lookup]
      have hset : setFieldValue (boolInfo w n) "true" [(w, .vbool false)] =
          .ok (recSet [(w, .vbool false)] w (.vbool true)) := by
        simp [setFieldValue, boolInfo, goParseBool]
      unfold parserParse
      rw [hfields]
      simp only [hregs]
      rw [hzero]
      simp [flagParseLoop, hdata, hc0, hc0e, hsplitEq, hname, hlookupReg, markSet,
        setBoolCell, initFlagState, initBoolValues, visitBools, sortStrings, insertSorted,
        visitWriteBool, goFormatBool, applyValues, applyValuesLoop, hraw1, hset, hcn, hcl,
        hreq]
    · simp [recLookup, recSet, List.lookup]

/-- C5 witness: the concrete boolean descriptor `Debug` with flag
`debug` — absent gives false, bare `--debug` gives true. -/
theorem c5_bool_presence_switch_witness :
    (∃ r, parserParse opts0 [.leaf "Debug" ⟨"", "debug", "", "", ""⟩ .boolK true] []
        (fun _ => "") = .ok r ∧ recLookup r "Debug" = some (.vbool false))
    ∧ (∃ r, parserParse opts0 [.leaf "Debug" ⟨"", "debug", "", "", ""⟩ .boolK true]
        ["--" ++ "debug"] (fun _ => "") = .ok r
      ∧ recLookup r "Debug" = some (.vbool true)) :=
  c5_bool_presence_switch "Debug" "debug" 'd' ['e', 'b', 'u', 'g'] (by decide) (by decide)
    (by decide) (by decide) (by decide) (by decide) (by decide) (by decide)
